import Mathlib

/-!
# CraftSQL — verification of the content-addressed page store stack

Shallow embedding of the CraftSQL crates (`core`, `store-local`, `objstore`,
`store-cached`, `objbridge`, `vfs`) in Lean 4, together with theorems settling
the specification claims about them.

Modelling conventions:
* A Rust `u8` is `Fin 256`; byte strings are `List (Fin 256)`.
* `Cid` is a 32-byte string, as in Rust's `Cid(pub [u8; 32])`.
* SHA-256 (the `sha2` crate, external to this repository) is treated at its
  interface boundary: a parameter `h : Bytes → Cid`.  No property of the
  digest function is assumed anywhere; theorems that need the absence of a
  hash collision state it as an explicit hypothesis.
* The file system is explicit state: a directory of pages is a function
  `Cid → Option Bytes` (the on-disk key is `hex(cid)`, and hex encoding is
  injective, so keying by `Cid` is faithful); the `root` and `refs/<name>`
  files hold character contents where their parsing matters.
* Fallible Rust code returns `Except PSError`; the one place that can panic
  (`LocalPageStore::read_cid_file`) returns a dedicated `POutcome` with a
  `panic` constructor.
* Error message strings are abbreviated tags of the `format!` messages in the
  source (the dynamic parts — io error texts, hex digests — are dropped).
-/

namespace CraftSQL

/-- A byte (Rust `u8`). -/
abbrev Byte := Fin 256

/-- A byte string (Rust `Vec<u8>` / `&[u8]`). -/
abbrev Bytes := List Byte

/-- Truncate a natural number to a byte, as Rust's `as u8` / byte extraction. -/
def byteOf (n : Nat) : Byte := ⟨n % 256, by omega⟩

/-- Content identifier: a 32-byte SHA-256 digest (`Cid(pub [u8; 32])` in
`crates/core/src/lib.rs`). -/
def Cid := { l : Bytes // l.length = 32 }

instance : DecidableEq Cid := fun a b =>
  decidable_of_iff (a.val = b.val) Subtype.ext_iff.symm

/-- The distinguished null CID (all zero bytes): "no root / deleted". -/
def nullCid : Cid := ⟨List.replicate 32 (0 : Byte), by simp⟩

/-- The digest interface of the external `sha2` crate: `Cid::from_bytes`
computes `Sha256::digest(data)`.  Kept abstract — the code never inspects the
digest beyond equality. -/
abbrev Hash := Bytes → Cid

/-- Errors of `PageStoreError` (`Io` folds into `Storage`, as the spec notes
most callers do; in this model file-system primitives are total). -/
inductive PSError where
  | notFound (c : Cid)
  | storage (msg : String)
deriving DecidableEq

/-- Little-endian 2-byte encoding (Rust `u16::to_le_bytes`). -/
def le16 (n : Nat) : Bytes := [byteOf n, byteOf (n / 2 ^ 8)]

/-- Little-endian 4-byte encoding (Rust `u32::to_le_bytes`). -/
def le32 (n : Nat) : Bytes :=
  [byteOf n, byteOf (n / 2 ^ 8), byteOf (n / 2 ^ 16), byteOf (n / 2 ^ 24)]

/-- Little-endian 8-byte encoding (Rust `u64::to_le_bytes`; `usize` is 64-bit). -/
def le64 (n : Nat) : Bytes :=
  [byteOf n, byteOf (n / 2 ^ 8), byteOf (n / 2 ^ 16), byteOf (n / 2 ^ 24),
   byteOf (n / 2 ^ 32), byteOf (n / 2 ^ 40), byteOf (n / 2 ^ 48), byteOf (n / 2 ^ 56)]

/-- Little-endian decoding of a byte string (`u{16,32,64}::from_le_bytes`). -/
def decodeLE (bs : Bytes) : Nat := bs.foldr (fun b acc => b.val + 256 * acc) 0

/-- `PageTable` (`crates/core/src/lib.rs`): ordered sequence of optional CIDs. -/
structure PageTable where
  entries : List (Option Cid)
deriving DecidableEq

/-- `PageTable::get`: `entries.get(page_num).and_then(|e| e.as_ref())`. -/
def PageTable.get (pt : PageTable) (i : Nat) : Option Cid :=
  (pt.entries.get? i).bind id

/-- `PageTable::set`: grow with `None` up to `page_num + 1` if needed, then
assign. -/
def PageTable.set (pt : PageTable) (i : Nat) (c : Cid) : PageTable :=
  let es := if pt.entries.length ≤ i then
      pt.entries ++ List.replicate (i + 1 - pt.entries.length) none
    else pt.entries
  ⟨es.set i (some c)⟩

/-- `PageTable::len`. -/
def PageTable.len (pt : PageTable) : Nat := pt.entries.length

/-- bincode 1.x encoding of one `Option<Cid>` element: a one-byte tag
(0 = `None`, 1 = `Some`), followed by the raw 32 digest bytes. -/
def encodeEntry : Option Cid → Bytes
  | none => [(0 : Byte)]
  | some c => (1 : Byte) :: c.val

/-- `PageTable::to_bytes` = `bincode::serialize`: the single `entries` field,
a `Vec` with `u64` little-endian length prefix followed by the elements. -/
def PageTable.toBytes (pt : PageTable) : Bytes :=
  le64 pt.entries.length ++ (pt.entries.map encodeEntry).flatten

/-- Read a 32-byte digest off the front of the input (bincode `[u8; 32]`). -/
def parseCid (bs : Bytes) : Option (Cid × Bytes) :=
  if h : 32 ≤ bs.length then
    some (⟨bs.take 32, by simp [List.length_take]; omega⟩, bs.drop 32)
  else none

/-- Read `n` bincode `Option<Cid>` elements off the front of the input. -/
def parseEntries : Nat → Bytes → Except String (List (Option Cid) × Bytes)
  | 0, bs => .ok ([], bs)
  | _ + 1, [] => .error "unexpected end of input"
  | n + 1, b :: bs =>
    if b.val = 0 then
      match parseEntries n bs with
      | .ok (es, rest) => .ok (none :: es, rest)
      | .error e => .error e
    else if b.val = 1 then
      match parseCid bs with
      | some (c, rest) =>
        match parseEntries n rest with
        | .ok (es, rest2) => .ok (some c :: es, rest2)
        | .error e => .error e
      | none => .error "unexpected end of input"
    else .error "invalid Option tag"

/-- `PageTable::from_bytes` = `bincode::deserialize` (trailing bytes are
permitted by bincode's default configuration). -/
def PageTable.fromBytes (bs : Bytes) : Except String PageTable :=
  if 8 ≤ bs.length then
    match parseEntries (decodeLE (bs.take 8)) (bs.drop 8) with
    | .ok (es, _) => .ok ⟨es⟩
    | .error e => .error e
  else .error "unexpected end of input"

/-! ## Hex codec (the `hex` crate, at its interface boundary) -/

/-- Value of one hex digit, upper- or lower-case (`hex::decode` accepts both). -/
def hexDigitVal (c : Char) : Option Nat :=
  if 48 ≤ c.toNat ∧ c.toNat ≤ 57 then some (c.toNat - 48)
  else if 97 ≤ c.toNat ∧ c.toNat ≤ 102 then some (c.toNat - 87)
  else if 65 ≤ c.toNat ∧ c.toNat ≤ 70 then some (c.toNat - 55)
  else none

/-- `hex::decode`: pairs of hex digits; errors on odd length or a non-digit. -/
def hexDecode : List Char → Except String Bytes
  | [] => .ok []
  | [_] => .error "Odd number of digits"
  | c1 :: c2 :: rest =>
    match hexDigitVal c1, hexDigitVal c2 with
    | some hi, some lo =>
      match hexDecode rest with
      | .ok bs => .ok (byteOf (hi * 16 + lo) :: bs)
      | .error e => .error e
    | _, _ => .error "Invalid character"

/-- Lower-case hex digit character. -/
def hexDigitChar (n : Nat) : Char :=
  if n < 10 then Char.ofNat (48 + n) else Char.ofNat (87 + n)

/-- `hex::encode`: lower-case hex of a byte string. -/
def hexEncode (bs : Bytes) : List Char :=
  bs.foldr (fun b acc => hexDigitChar (b.val / 16) :: hexDigitChar (b.val % 16) :: acc) []

/-- Rust `str::trim` on a character list (strip leading/trailing whitespace). -/
def trimChars (s : List Char) : List Char :=
  (((s.dropWhile Char.isWhitespace).reverse).dropWhile Char.isWhitespace).reverse

/-! ## Name sanitization (`ref_path` in `store-local` and `objstore`)

Both stores map a named-root name to a file name by keeping characters `c`
with `c.is_alphanumeric() || c == '-' || c == '_' || c == '.'` and replacing
everything else with `'_'`.  Rust's `char::is_alphanumeric` tests the Unicode
`Alphabetic` and `Number` properties; `rustIsAlphanumeric` below reproduces it
exactly on the code points U+0000..U+00FF (from the Unicode character database:
ASCII digits and letters, and in the Latin-1 supplement ª ² ³ µ ¹ º ¼ ½ ¾ and
the letters À–Ö, Ø–ö, ø–ÿ).  It returns `false` above U+00FF; every theorem
below that quantifies over names restricts them to this exact range. -/

def rustIsAlphanumeric (c : Char) : Bool :=
  (48 ≤ c.toNat && c.toNat ≤ 57) ||
  (65 ≤ c.toNat && c.toNat ≤ 90) ||
  (97 ≤ c.toNat && c.toNat ≤ 122) ||
  (c.toNat == 0xAA) || (c.toNat == 0xB2) || (c.toNat == 0xB3) || (c.toNat == 0xB5) ||
  (c.toNat == 0xB9) || (c.toNat == 0xBA) ||
  (0xBC ≤ c.toNat && c.toNat ≤ 0xBE) ||
  (0xC0 ≤ c.toNat && c.toNat ≤ 0xD6) ||
  (0xD8 ≤ c.toNat && c.toNat ≤ 0xF6) ||
  (0xF8 ≤ c.toNat && c.toNat ≤ 0xFF)

/-- The sanitization step of `LocalPageStore::ref_path` and
`CraftObjPageStore::ref_path`, parameterized by the alphanumeric test. -/
def sanitizeWith (isAlnum : Char → Bool) (name : List Char) : List Char :=
  name.map (fun c => if isAlnum c || c == '-' || c == '_' || c == '.' then c else '_')

/-- The file name under `refs/` derived for a named root. -/
def refFileName (name : List Char) : List Char :=
  sanitizeWith rustIsAlphanumeric name

/-- The character class `[A-Za-z0-9._-]` — stated from the spec's words, to be
compared with what sanitization actually produces. -/
def inSpecAsciiClass (c : Char) : Bool :=
  (48 ≤ c.toNat && c.toNat ≤ 57) ||
  (65 ≤ c.toNat && c.toNat ≤ 90) ||
  (97 ≤ c.toNat && c.toNat ≤ 122) ||
  c == '-' || c == '_' || c == '.'

/-! ## Local disk store (`crates/store-local/src/lib.rs`) -/

/-- Outcome of an operation that may panic (Rust `panic!` aborts the call). -/
inductive POutcome (α : Type) where
  | ok (v : α)
  | err (e : PSError)
  | panic (msg : String)
deriving DecidableEq

/-- State of a `LocalPageStore` directory: the `pages/` directory (keyed by
CID — on disk the key is `hex(cid)`, and hex encoding is injective), the
`root` file and the `refs/` directory, both with raw character contents. -/
structure LocalStore where
  pages : Cid → Option Bytes
  rootFile : Option (List Char)
  refs : List Char → Option (List Char)

/-- The empty freshly-created store directory. -/
def LocalStore.empty : LocalStore :=
  { pages := fun _ => none, rootFile := none, refs := fun _ => none }

/-- `LocalPageStore::read_cid_file`: absent file is `Ok(None)`; hex-decode the
trimmed contents (decode failure is `Storage`); then `copy_from_slice` into a
`[u8; 32]`, which panics when the decoded length is not 32 — there is no
length check in the local store (unlike `objstore`'s copy of this function). -/
def readCidFileLocal (file : Option (List Char)) : POutcome (Option Cid) :=
  match file with
  | none => .ok none
  | some content =>
    match hexDecode (trimChars content) with
    | .error e => .err (.storage e)
    | .ok bytes =>
      if h : bytes.length = 32 then .ok (some ⟨bytes, h⟩)
      else .panic "copy_from_slice: source slice length does not match destination"

/-- `LocalPageStore::get`: read `pages/<hex(cid)>`; a read failure is
`NotFound`. -/
def localGet (st : LocalStore) (c : Cid) : Except PSError Bytes :=
  match st.pages c with
  | some d => .ok d
  | none => .error (.notFound c)

/-- `LocalPageStore::put`: `cid = Cid::from_bytes(&page.data)`; write the file
only if it does not already exist; return the CID. -/
def localPut (h : Hash) (st : LocalStore) (data : Bytes) : Cid × LocalStore :=
  let c := h data
  match st.pages c with
  | some _ => (c, st)
  | none => (c, { st with pages := fun k => if k = c then some data else st.pages k })

/-- `LocalPageStore::update_root`: write `hex(cid)` to the `root` file. -/
def localUpdateRoot (st : LocalStore) (c : Cid) : LocalStore :=
  { st with rootFile := some (hexEncode c.val) }

/-- `LocalPageStore::current_root` = `read_cid_file(root_path)`. -/
def localCurrentRoot (st : LocalStore) : POutcome (Option Cid) :=
  readCidFileLocal st.rootFile

/-- `LocalPageStore::get_named_root` = `read_cid_file(ref_path(name))`. -/
def localGetNamedRoot (st : LocalStore) (name : List Char) : POutcome (Option Cid) :=
  readCidFileLocal (st.refs (refFileName name))

/-- `LocalPageStore::set_named_root`: write `hex(cid)` to `refs/<sanitized>`. -/
def localSetNamedRoot (st : LocalStore) (name : List Char) (c : Cid) : LocalStore :=
  { st with refs := fun k => if k = refFileName name then some (hexEncode c.val) else st.refs k }

/-! ## The `PageStore` trait and the VFS shim (`crates/vfs/src/lib.rs`)

The VFS is generic over `S: PageStore`; the trait is a record of operations
over an abstract store state `σ`.  Rust methods take `&self` and mutate
through interior mutability or the file system, so every operation is modelled
state-passing. -/

/-- The `PageStore` trait operations the VFS claims need. -/
structure StoreOps (σ : Type) where
  get : σ → Cid → Except PSError Bytes × σ
  put : σ → Bytes → Except PSError Cid × σ
  updateRoot : σ → Cid → Except PSError Unit × σ
  currentRoot : σ → Except PSError (Option Cid) × σ

instance {ε α : Type} [DecidableEq ε] [DecidableEq α] : DecidableEq (Except ε α) :=
  fun x y =>
    match x, y with
    | .ok a, .ok b => decidable_of_iff (a = b) (by simp)
    | .ok _, .error _ => isFalse (by simp)
    | .error _, .ok _ => isFalse (by simp)
    | .error e, .error f => decidable_of_iff (e = f) (by simp)

/-- Observable events of a store during a VFS operation: each `put` attempt
with its result, and each `update_root` attempt with its result. -/
inductive Event where
  | putEv (data : Bytes) (res : Except PSError Cid)
  | rootEv (c : Cid) (res : Except PSError Unit)
deriving DecidableEq

/-- `db.ends_with("-journal") || db.ends_with("-wal") || db.ends_with("-shm")`
— the auxiliary-file test of `CraftVfs::delete` and `CraftVfs::exists`. -/
def isAuxFile (db : List Char) : Bool :=
  "-journal".toList.isSuffixOf db || "-wal".toList.isSuffixOf db ||
    "-shm".toList.isSuffixOf db

/-- `CraftVfs::delete`: journal/wal/shm names are a no-op; otherwise reset the
root pointer to the null CID. -/
def vfsDelete (ops : StoreOps σ) (st : σ) (db : List Char) : Except PSError Unit × σ :=
  if isAuxFile db then (.ok (), st)
  else ops.updateRoot st nullCid

/-- `CraftVfs::exists`: journal/wal/shm names never exist; otherwise report
`current_root()?.is_some()` — note: no null-CID test. -/
def vfsExists (ops : StoreOps σ) (st : σ) (db : List Char) : Except PSError Bool × σ :=
  if isAuxFile db then (.ok false, st)
  else
    match ops.currentRoot st with
    | (.ok r, st') => (.ok r.isSome, st')
    | (.error e, st') => (.error e, st')

/-- The per-connection `PageBuffer` of a `CraftDbHandle`. -/
structure PageBuffer where
  pages : List (Option Bytes)
  pageSize : Nat
  fileSize : Nat
  pageTable : PageTable
  dirty : Bool

/-- The put loop of `CraftDbHandle::sync`: store every buffered page slot that
holds data, collecting `(index, cid)` assignments, the store state, and the
event trace; the first failing `put` aborts the whole sync. -/
def syncPuts (ops : StoreOps σ) :
    List (Option Bytes) → Nat → σ →
    (Except PSError (List (Nat × Cid)) × σ × List Event)
  | [], _, st => (.ok [], st, [])
  | none :: rest, i, st => syncPuts ops rest (i + 1) st
  | some d :: rest, i, st =>
    match ops.put st d with
    | (.ok c, st') =>
      match syncPuts ops rest (i + 1) st' with
      | (.ok updates, st'', tr) => (.ok ((i, c) :: updates), st'', .putEv d (.ok c) :: tr)
      | (.error e, st'', tr) => (.error e, st'', .putEv d (.ok c) :: tr)
    | (.error e, st') => (.error e, st', [.putEv d (.error e)])

/-- Apply the collected `(index, cid)` assignments: `page_table.set(i, cid)`. -/
def applyUpdates (pt : PageTable) : List (Nat × Cid) → PageTable
  | [] => pt
  | (i, c) :: rest => applyUpdates (pt.set i c) rest

/-- `CraftDbHandle::sync`: no-op when clean; otherwise put every buffered
page, update the page table, put the serialized table as a page, and only then
`update_root` with the table's CID; finally clear the buffered slots. -/
def vfsSync (ops : StoreOps σ) (st : σ) (buf : PageBuffer) :
    Except PSError Unit × σ × PageBuffer × List Event :=
  if buf.dirty = false then (.ok (), st, buf, [])
  else
    match syncPuts ops buf.pages 0 st with
    | (.error e, st', tr) => (.error e, st', buf, tr)
    | (.ok updates, st', tr) =>
      match ops.put st' (applyUpdates buf.pageTable updates).toBytes with
      | (.error e, st'') =>
        (.error e, st'', { buf with pageTable := applyUpdates buf.pageTable updates },
          tr ++ [.putEv (applyUpdates buf.pageTable updates).toBytes (.error e)])
      | (.ok ptCid, st'') =>
        match ops.updateRoot st'' ptCid with
        | (.error e, st3) =>
          (.error e, st3, { buf with pageTable := applyUpdates buf.pageTable updates },
            tr ++ [.putEv (applyUpdates buf.pageTable updates).toBytes (.ok ptCid),
              .rootEv ptCid (.error e)])
        | (.ok _, st3) =>
          (.ok (), st3,
            { buf with pages := buf.pages.map (fun _ => none),
                       pageTable := applyUpdates buf.pageTable updates, dirty := false },
            tr ++ [.putEv (applyUpdates buf.pageTable updates).toBytes (.ok ptCid),
              .rootEv ptCid (.ok ())])

/-- The in-memory `MemStore` of the VFS test suite: pages in a map, a root
cell (`update_root` always stores `Some`). -/
structure MemStore where
  pages : Cid → Option Bytes
  root : Option Cid

/-- `MemStore`'s `PageStore` implementation. -/
def memOps (h : Hash) : StoreOps MemStore where
  get st c :=
    match st.pages c with
    | some d => (.ok d, st)
    | none => (.error (.notFound c), st)
  put st data :=
    let c := h data
    (.ok c, { st with pages := fun k => if k = c then some data else st.pages k })
  updateRoot st c := (.ok (), { st with root := some c })
  currentRoot st := (.ok st.root, st)

/-- The empty `MemStore`. -/
def MemStore.empty : MemStore := { pages := fun _ => none, root := none }

/-! ## CraftOBJ-backed store (`crates/objstore/src/lib.rs`)

`CraftObjPageStore<DaemonBackend>`: the disk cache under `pages/` plus the
local `root` file, over the daemon RPC backend of `crates/objbridge`.  The
`root` file is modelled as `Option Cid` — a well-formed hex file or absent;
this store's `read_cid_file` rejects malformed contents with `Storage`, and
`get` treats that exactly like an absent root (its `if let Ok(Some(..))`
skips the bundle fetch), so no claim distinguishes the two. -/

structure ObjStore where
  cache : Cid → Option Bytes
  rootFile : Option Cid

/-- Write `pages/<hex(cid)>` only if absent (the `if !path.exists()` guard of
`unbundle_pages` and `put`). -/
def cachePutIfAbsent (st : ObjStore) (c : Cid) (d : Bytes) : ObjStore :=
  match st.cache c with
  | some _ => st
  | none => { st with cache := fun k => if k = c then some d else st.cache k }

/-- The bundle magic `b"CSQL"`. -/
def bundleMagic : Bytes := [byteOf 67, byteOf 83, byteOf 81, byteOf 76]

/-- One page slot of the bundle body: a present page is its cached bytes,
zero-padded up to `page_size` when shorter (and NOT truncated when longer);
an absent slot is `page_size` zero bytes. -/
def bundleChunk (ps : Nat) (d : Bytes) : Bytes :=
  if d.length < ps then d ++ List.replicate (ps - d.length) (0 : Byte) else d

/-- The body entry for index `i` of `bundle_pages`: read the cached page (a
read failure is `Storage`), or zeros for an empty slot. -/
def bundlePageAt (st : ObjStore) (pt : PageTable) (ps : Nat) (i : Nat) :
    Except PSError Bytes :=
  match pt.get i with
  | some c =>
    match st.cache c with
    | some d => .ok (bundleChunk ps d)
    | none => .error (.storage "read cached page")
  | none => .ok (List.replicate ps (0 : Byte))

/-- The `for i in 0..page_count` loop of `bundle_pages`, concatenating the
body entries; `i` is the next index, `r` the number of slots left. -/
def bundleLoop (st : ObjStore) (pt : PageTable) (ps : Nat) : Nat → Nat → Except PSError Bytes
  | _, 0 => .ok []
  | i, r + 1 =>
    match bundlePageAt st pt ps i with
    | .error e => .error e
    | .ok chunk =>
      match bundleLoop st pt ps (i + 1) r with
      | .error e => .error e
      | .ok rest => .ok (chunk ++ rest)

/-- `CraftObjPageStore::bundle_pages`: header (`magic ++ version ++ page_size
++ page_count`), the serialized page table, the `pt_len` trailer, then the
page data in index order.  `page_count` and `pt_len` are written as `u32`
(`le32` keeps only the low 32 bits), and `page_count as usize` bounds the
loop. -/
def bundlePages (st : ObjStore) (pt : PageTable) (ps : Nat) : Except PSError Bytes :=
  match bundleLoop st pt ps 0 (pt.entries.length % 2 ^ 32) with
  | .error e => .error e
  | .ok body =>
    .ok (bundleMagic ++ le16 1 ++ le32 ps ++ le32 pt.entries.length ++ pt.toBytes ++
      le32 pt.toBytes.length ++ body)

/-- The page-extraction loop of `unbundle_pages`: for each `i`, slice
`page_size` bytes at `pages_start + i * page_size`, hash them, and cache the
slice under its own digest if absent.  (`i` counts up, `r` slots remain.) -/
def unbundleWrite (h : Hash) (data : Bytes) (ps pagesStart : Nat) :
    Nat → Nat → ObjStore → Except PSError ObjStore
  | _, 0, st => .ok st
  | i, r + 1, st =>
    let off := pagesStart + i * ps
    if data.length < off + ps then .error (.storage "bundle truncated")
    else
      let chunk := (data.drop off).take ps
      unbundleWrite h data ps pagesStart (i + 1) r (cachePutIfAbsent st (h chunk) chunk)

/-- The `page_size` field of a bundle: `u32` little-endian at offset 6. -/
def bundlePS (data : Bytes) : Nat := decodeLE ((data.drop 6).take 4)

/-- The `page_count` field of a bundle: `u32` little-endian at offset 10. -/
def bundleCount (data : Bytes) : Nat := decodeLE ((data.drop 10).take 4)

/-- Where `unbundle_pages` locates `pt_len`:
`total_len - page_count * page_size - 4`. -/
def bundlePtLenOffset (data : Bytes) : Nat :=
  data.length - bundleCount data * bundlePS data - 4

/-- The `pt_len` trailer read at `bundlePtLenOffset`. -/
def bundlePtLen (data : Bytes) : Nat :=
  decodeLE ((data.drop (bundlePtLenOffset data)).take 4)

/-- `CraftObjPageStore::unbundle_pages`: parse and check the header, locate
`pt_len` as `total_len - page_count*page_size - 4`, parse the page table,
cache every extracted page and the page table itself.  The store state is
returned alongside the result (on an error, the state reached so far — the
only error arm after cache writes begin, "bundle truncated" inside
`unbundleWrite`, is unreachable because the sizes were already checked). -/
def unbundlePages (h : Hash) (st : ObjStore) (data : Bytes) :
    Except PSError PageTable × ObjStore :=
  if data.length < 18 then (.error (.storage "bundle too small"), st)
  else if data.take 4 ≠ bundleMagic then (.error (.storage "invalid bundle magic"), st)
  else if decodeLE ((data.drop 4).take 2) ≠ 1 then
    (.error (.storage "unsupported bundle version"), st)
  else if data.length < 18 + bundleCount data * bundlePS data then
    (.error (.storage "bundle data too short"), st)
  else if bundlePtLenOffset data < 14 + bundlePtLen data then
    (.error (.storage "invalid page table length"), st)
  else
    match PageTable.fromBytes ((data.drop 14).take (bundlePtLen data)) with
    | .error _ => (.error (.storage "parse page table"), st)
    | .ok pt =>
      match unbundleWrite h data (bundlePS data) (bundlePtLenOffset data + 4) 0
          (bundleCount data) st with
      | .error e => (.error e, st)
      | .ok st' => (.ok pt, cachePutIfAbsent st' (h pt.toBytes) pt.toBytes)

/-- `DaemonBackend::fetch_page` (`crates/objbridge/src/lib.rs`): ask the
daemon for the content of `cid` (`files` is what the daemon serves), read the
produced temp file, delete it, then verify `SHA-256(data) == cid` and fail
`Storage("CID mismatch after fetch")` on mismatch. -/
def daemonFetchPage (h : Hash) (files : Cid → Option Bytes) (c : Cid) :
    Except PSError Bytes :=
  match files c with
  | none => .error (.storage "read fetched page")
  | some d => if h d = c then .ok d else .error (.storage "CID mismatch after fetch")

/-- `CraftObjPageStore::fetch_and_unbundle`: fetch the bundle blob by the root
CID via the backend, then unbundle it into the cache. -/
def fetchAndUnbundle (h : Hash) (files : Cid → Option Bytes) (st : ObjStore)
    (c : Cid) : Except PSError PageTable × ObjStore :=
  match daemonFetchPage h files c with
  | .error e => (.error e, st)
  | .ok d => unbundlePages h st d

/-- `CraftObjPageStore::current_root` over the daemon backend: the backend's
`get_root` is always `Ok(None)` (roots are local-only), so this always falls
back to the local `root` file. -/
def objCurrentRoot (st : ObjStore) : Except PSError (Option Cid) :=
  .ok st.rootFile

/-- The `if let Ok(Some(root_cid)) = self.current_root()` step of `get`:
when a root is known and its blob is not cached, fetch and unbundle it; the
result of `fetch_and_unbundle` is discarded (`let _ = ...`), only its cache
writes remain.  (`current_root` here is always `Ok(rootFile)`, see
`objCurrentRoot`.) -/
def objGetBundleStep (h : Hash) (files : Cid → Option Bytes) (st : ObjStore) : ObjStore :=
  match st.rootFile with
  | some rootCid =>
    match st.cache rootCid with
    | some _ => st
    | none => (fetchAndUnbundle h files st rootCid).2
  | none => st

/-- `CraftObjPageStore::get` over the daemon backend: local cache, then the
bundle fetched via the current root (errors swallowed), then the cache again,
then a last-resort direct fetch that re-verifies the digest before caching the
bytes under the requested CID. -/
def craftObjGet (h : Hash) (files : Cid → Option Bytes) (st : ObjStore) (c : Cid) :
    Except PSError Bytes × ObjStore :=
  match st.cache c with
  | some d => (.ok d, st)
  | none =>
    match (objGetBundleStep h files st).cache c with
    | some d => (.ok d, objGetBundleStep h files st)
    | none =>
      match daemonFetchPage h files c with
      | .error e => (.error e, objGetBundleStep h files st)
      | .ok d =>
        if h d = c then
          (.ok d,
            { objGetBundleStep h files st with
                cache := fun k =>
                  if k = c then some d else (objGetBundleStep h files st).cache k })
        else (.error (.storage "CID mismatch"), objGetBundleStep h files st)

/-- `CraftObjPageStore::put`: write to the local cache only if absent; no
network publish. -/
def craftObjPut (h : Hash) (st : ObjStore) (data : Bytes) : Cid × ObjStore :=
  (h data, cachePutIfAbsent st (h data) data)

/-- A concrete store whose `pages/` directory holds one two-byte page under
the all-zero CID — a fixture for evaluating the bundler at small inputs. -/
def cexStore : ObjStore :=
  { cache := fun c => if c = nullCid then some [byteOf 0, byteOf 0] else none,
    rootFile := none }

/-- A one-entry page table pointing at the all-zero CID. -/
def cexTable : PageTable := ⟨[some nullCid]⟩

/-- A trivial concrete digest function, used only to instantiate theorems at
concrete inputs where the digest value is irrelevant. -/
def cexHash : Hash := fun _ => nullCid

/-- Like `cexStore`, but the page under the all-zero CID is a single byte, so
it fits a page size of 1. -/
def fitStore : ObjStore :=
  { cache := fun c => if c = nullCid then some [byteOf 7] else none, rootFile := none }

/-- A CID distinct from the null CID, for concrete instantiations. -/
def oneCid : Cid := ⟨byteOf 1 :: List.replicate 31 (byteOf 0), by simp⟩

/-- A freshly-created CraftOBJ store directory: empty cache, no root. -/
def emptyObj : ObjStore := { cache := fun _ => none, rootFile := none }

/-! ## Caching store (`crates/store-cached/src/lib.rs`)

`CachingPageStore<R>` pairs the local disk store with an abstract remote
`R: PageStore`; the root pointer carries an in-memory `(root, fetched_at)`
cache governed by `root_ttl`.  Time is an explicit `Nat` instant; Rust's
`Instant::duration_since` saturates at zero, as does `Nat` subtraction. -/

/-- The remote operations the root-caching claims need. -/
structure RemoteOps (ρ : Type) where
  currentRoot : ρ → Except PSError (Option Cid) × ρ
  updateRoot : ρ → Cid → Except PSError Unit × ρ

/-- `CacheConfig.root_ttl` (`None` = cache indefinitely). -/
structure CacheConfig where
  rootTtl : Option Nat

/-- The state of a `CachingPageStore`: the local disk store, the in-memory
root cache with its fetch instant, and the remote store's state. -/
structure CachingState (ρ : Type) where
  localSt : LocalStore
  cacheRoot : Option Cid
  cacheFetchedAt : Option Nat
  remoteSt : ρ

/-- `CachingPageStore::refresh_root`: fetch the root from the remote
(errors propagate), stamp the in-memory cache with `now`, mirror a present
root to the local store.  The `Bool` records that the remote was contacted. -/
def cachedRefreshRoot (ro : RemoteOps ρ) (st : CachingState ρ) (now : Nat) :
    Except PSError (Option Cid) × CachingState ρ × Bool :=
  match ro.currentRoot st.remoteSt with
  | (.error e, ρ') => (.error e, { st with remoteSt := ρ' }, true)
  | (.ok remoteRoot, ρ') =>
    let st1 :=
      { st with remoteSt := ρ', cacheRoot := remoteRoot, cacheFetchedAt := some now }
    match remoteRoot with
    | some c => (.ok remoteRoot, { st1 with localSt := localUpdateRoot st1.localSt c }, true)
    | none => (.ok remoteRoot, st1, true)

/-- `CachingPageStore::current_root`: return the cached root while
`now - fetched_at < root_ttl` (always, when no TTL is configured); otherwise
refresh from the remote.  The `Bool` records whether the remote was
contacted. -/
def cachedCurrentRoot (ro : RemoteOps ρ) (cfg : CacheConfig) (st : CachingState ρ)
    (now : Nat) : Except PSError (Option Cid) × CachingState ρ × Bool :=
  match st.cacheRoot, st.cacheFetchedAt with
  | some root, some fetchedAt =>
    match cfg.rootTtl with
    | some ttl =>
      if now - fetchedAt < ttl then (.ok (some root), st, false)
      else cachedRefreshRoot ro st now
    | none => (.ok (some root), st, false)
  | _, _ => cachedRefreshRoot ro st now

/-- `CachingPageStore::update_root`: write the local root file, then the
remote (errors propagate before the cache is touched), then stamp the
in-memory cache with `now`. -/
def cachedUpdateRoot (ro : RemoteOps ρ) (st : CachingState ρ) (c : Cid) (now : Nat) :
    Except PSError Unit × CachingState ρ :=
  match ro.updateRoot st.remoteSt c with
  | (.error e, ρ') =>
    (.error e, { st with localSt := localUpdateRoot st.localSt c, remoteSt := ρ' })
  | (.ok _, ρ') =>
    (.ok (),
      { localSt := localUpdateRoot st.localSt c, cacheRoot := some c,
        cacheFetchedAt := some now, remoteSt := ρ' })

/-! ## Little-endian and serialization lemmas -/

theorem decodeLE_le16 (n : Nat) (h : n < 2 ^ 16) : decodeLE (le16 n) = n := by
  simp only [le16, decodeLE, byteOf, List.foldr]
  omega

theorem decodeLE_le32 (n : Nat) (h : n < 2 ^ 32) : decodeLE (le32 n) = n := by
  simp only [le32, decodeLE, byteOf, List.foldr]
  omega

theorem decodeLE_le64 (n : Nat) (h : n < 2 ^ 64) : decodeLE (le64 n) = n := by
  simp only [le64, decodeLE, byteOf, List.foldr]
  omega

theorem le16_length (n : Nat) : (le16 n).length = 2 := rfl

theorem le32_length (n : Nat) : (le32 n).length = 4 := rfl

theorem le64_length (n : Nat) : (le64 n).length = 8 := rfl

theorem parseCid_append (c : Cid) (rest : Bytes) :
    parseCid (c.val ++ rest) = some (c, rest) := by
  have hlen : (c.val ++ rest).length = 32 + rest.length := by
    simp [List.length_append, c.prop]
  have ht : (c.val ++ rest).take 32 = c.val := by
    have h := List.take_left c.val rest
    rwa [c.prop] at h
  have hd : (c.val ++ rest).drop 32 = rest := by
    have h := List.drop_left c.val rest
    rwa [c.prop] at h
  unfold parseCid
  rw [dif_pos (by omega)]
  simp only [Option.some.injEq, Prod.mk.injEq]
  exact ⟨Subtype.ext ht, hd⟩

theorem parseEntries_encode (es : List (Option Cid)) (rest : Bytes) :
    parseEntries es.length ((es.map encodeEntry).flatten ++ rest) = .ok (es, rest) := by
  induction es with
  | nil => simp [parseEntries]
  | cons e es ih =>
    cases e with
    | none =>
      simp [parseEntries, encodeEntry, ih]
    | some c =>
      simp [parseEntries, encodeEntry, parseCid_append, ih]

theorem fromBytes_toBytes (pt : PageTable) (hlen : pt.entries.length < 2 ^ 64) :
    PageTable.fromBytes pt.toBytes = .ok pt := by
  have hsplit : pt.toBytes = le64 pt.entries.length ++ (pt.entries.map encodeEntry).flatten :=
    rfl
  have hlen8 : 8 ≤ pt.toBytes.length := by
    rw [hsplit]
    simp [le64_length]
  have htake : pt.toBytes.take 8 = le64 pt.entries.length := by
    rw [hsplit]
    have h := List.take_left (le64 pt.entries.length) ((pt.entries.map encodeEntry).flatten)
    rwa [le64_length] at h
  have hdrop : pt.toBytes.drop 8 = (pt.entries.map encodeEntry).flatten := by
    rw [hsplit]
    have h := List.drop_left (le64 pt.entries.length) ((pt.entries.map encodeEntry).flatten)
    rwa [le64_length] at h
  unfold PageTable.fromBytes
  rw [if_pos hlen8, htake, hdrop, decodeLE_le64 _ hlen]
  have h := parseEntries_encode pt.entries []
  rw [List.append_nil] at h
  rw [h]

/-- C9: deserializing the serialization of a `PageTable` recovers an equal
table — `from_bytes(to_bytes(pt))` succeeds and yields a table with the same
length and the same `Option<CID>` entry at every index.  (The length bound
reflects that a Rust `Vec` holds at most `usize::MAX` elements.) -/
theorem c9_pageTable_roundtrip (pt : PageTable) (hlen : pt.entries.length < 2 ^ 64) :
    PageTable.fromBytes pt.toBytes = .ok pt ∧
      ∀ pt', PageTable.fromBytes pt.toBytes = .ok pt' →
        pt'.len = pt.len ∧ ∀ i, pt'.entries.get? i = pt.entries.get? i := by
  refine ⟨fromBytes_toBytes pt hlen, ?_⟩
  intro pt' h
  rw [fromBytes_toBytes pt hlen] at h
  cases h
  exact ⟨rfl, fun _ => rfl⟩

theorem syncPuts_events_putEv {σ : Type} (ops : StoreOps σ) :
    ∀ (pages : List (Option Bytes)) (i : Nat) (st : σ) (e : Event),
      e ∈ (syncPuts ops pages i st).2.2 → ∃ d r, e = Event.putEv d r := by
  intro pages
  induction pages with
  | nil => intro i st e he; simp [syncPuts] at he
  | cons p rest ih =>
    intro i st e he
    cases p with
    | none => exact ih (i + 1) st e he
    | some d =>
      have hrest : e ∈ (syncPuts ops rest (i + 1) (ops.put st d).2).2.2 →
          ∃ d2 r, e = Event.putEv d2 r := ih (i + 1) (ops.put st d).2 e
      rcases hp : ops.put st d with ⟨r, st2⟩
      rw [hp] at hrest
      cases r with
      | ok c =>
        rcases hrec : syncPuts ops rest (i + 1) st2 with ⟨res, st3, tr⟩
        rw [hrec] at hrest
        cases res with
        | ok us =>
          simp only [syncPuts, hp, hrec, List.mem_cons] at he
          rcases he with he | he
          · exact ⟨d, .ok c, he⟩
          · exact hrest he
        | error e2 =>
          simp only [syncPuts, hp, hrec, List.mem_cons] at he
          rcases he with he | he
          · exact ⟨d, .ok c, he⟩
          · exact hrest he
      | error e2 =>
        simp only [syncPuts, hp, List.mem_singleton] at he
        exact ⟨d, .error e2, he⟩

theorem syncPuts_rootObs {σ : Type} (ops : StoreOps σ) (rootObs : σ → Option Cid)
    (hput : ∀ s d, rootObs (ops.put s d).2 = rootObs s) :
    ∀ (pages : List (Option Bytes)) (i : Nat) (st : σ),
      rootObs (syncPuts ops pages i st).2.1 = rootObs st := by
  intro pages
  induction pages with
  | nil => intro i st; rfl
  | cons p rest ih =>
    intro i st
    cases p with
    | none => exact ih (i + 1) st
    | some d =>
      have hst2 : rootObs (ops.put st d).2 = rootObs st := hput st d
      rcases hp : ops.put st d with ⟨r, st2⟩
      rw [hp] at hst2
      cases r with
      | ok c =>
        rcases hrec : syncPuts ops rest (i + 1) st2 with ⟨res, st3, tr⟩
        have h3 : rootObs st3 = rootObs st2 := by
          have := ih (i + 1) st2
          rwa [hrec] at this
        cases res with
        | ok us => simp only [syncPuts, hp, hrec]; rw [h3, hst2]
        | error e2 => simp only [syncPuts, hp, hrec]; rw [h3, hst2]
      | error e2 => simp only [syncPuts, hp]; exact hst2

theorem syncPuts_ok_events {σ : Type} (ops : StoreOps σ) :
    ∀ (pages : List (Option Bytes)) (i : Nat) (st : σ) updates st' tr,
      syncPuts ops pages i st = (.ok updates, st', tr) →
      ∀ e ∈ tr, ∃ d c, e = Event.putEv d (.ok c) := by
  intro pages
  induction pages with
  | nil =>
    intro i st updates st' tr hrun e he
    simp only [syncPuts, Prod.mk.injEq] at hrun
    rw [← hrun.2.2] at he
    simp at he
  | cons p rest ih =>
    intro i st updates st' tr hrun e he
    cases p with
    | none => exact ih (i + 1) st updates st' tr hrun e he
    | some d =>
      rcases hp : ops.put st d with ⟨r, st2⟩
      cases r with
      | ok c =>
        rcases hrec : syncPuts ops rest (i + 1) st2 with ⟨res, st3, tr1⟩
        cases res with
        | ok us =>
          simp only [syncPuts, hp, hrec, Prod.mk.injEq] at hrun
          rw [← hrun.2.2, List.mem_cons] at he
          rcases he with he | he
          · exact ⟨d, c, he⟩
          · exact ih (i + 1) st2 us st3 tr1 hrec e he
        | error e2 =>
          simp only [syncPuts, hp, hrec, Prod.mk.injEq] at hrun
          exact absurd hrun.1 (by simp)
      | error e2 =>
        simp only [syncPuts, hp, Prod.mk.injEq] at hrun
        exact absurd hrun.1 (by simp)

theorem syncTail_no_error_put (tr1 : List Event)
    (htr1 : ∀ e ∈ tr1, ∃ d c, e = Event.putEv d (.ok c)) (X : Bytes) (ptCid : Cid)
    (res0 : Except PSError Unit) :
    ∀ d e3, Event.putEv d (.error e3) ∈
      tr1 ++ [Event.putEv X (.ok ptCid), Event.rootEv ptCid res0] → False := by
  intro d e3 hmem
  rw [List.mem_append] at hmem
  rcases hmem with hmem | hmem
  · obtain ⟨d2, c2, habs⟩ := htr1 _ hmem
    injection habs with h1 h2
    exact Except.noConfusion h2
  · simp only [List.mem_cons, List.mem_singleton, List.not_mem_nil, or_false] at hmem
    rcases hmem with hmem | hmem
    · injection hmem with h1 h2
      exact Except.noConfusion h2
    · exact Event.noConfusion hmem

theorem syncTail_root_last (tr1 : List Event)
    (htr1 : ∀ e ∈ tr1, ∃ d c, e = Event.putEv d (.ok c)) (X : Bytes) (ptCid : Cid)
    (res0 : Except PSError Unit) :
    ∀ c r2, Event.rootEv c r2 ∈
        tr1 ++ [Event.putEv X (.ok ptCid), Event.rootEv ptCid res0] →
      ∃ pre, tr1 ++ [Event.putEv X (.ok ptCid), Event.rootEv ptCid res0] =
          pre ++ [Event.rootEv c r2] ∧
        ∀ e ∈ pre, ∃ d c2, e = Event.putEv d (.ok c2) := by
  intro c r2 hmem
  rw [List.mem_append] at hmem
  rcases hmem with hmem | hmem
  · obtain ⟨d2, c2, habs⟩ := htr1 _ hmem
    exact absurd habs (by simp)
  · simp only [List.mem_cons, List.mem_singleton, List.not_mem_nil, or_false] at hmem
    rcases hmem with hmem | hmem
    · exact absurd hmem (by simp)
    · injection hmem with h1 h2
      refine ⟨tr1 ++ [Event.putEv X (.ok ptCid)], by rw [h1, h2]; simp, ?_⟩
      intro e he
      rw [List.mem_append] at he
      rcases he with he | he
      · exact htr1 _ he
      · rw [List.mem_singleton] at he
        exact ⟨_, _, he⟩

/-- C4: during `CraftDbHandle::sync`, if any `put` (of a buffered page or of
the serialized `PageTable`) fails, sync returns an error, `update_root` is
never invoked, and the store's root pointer is unchanged (given that `put`
never changes the root, which holds for every store in the codebase);
moreover, whenever `update_root` is invoked, it is the final store operation
and every preceding operation is a `put` that succeeded. -/
theorem c4_sync_root_atomicity {σ : Type} (ops : StoreOps σ) (rootObs : σ → Option Cid)
    (hput : ∀ s d, rootObs (ops.put s d).2 = rootObs s) (st : σ) (buf : PageBuffer) :
    ((∃ d e, Event.putEv d (.error e) ∈ (vfsSync ops st buf).2.2.2) →
       (∃ e, (vfsSync ops st buf).1 = .error e) ∧
       (∀ c r2, Event.rootEv c r2 ∉ (vfsSync ops st buf).2.2.2) ∧
       rootObs (vfsSync ops st buf).2.1 = rootObs st) ∧
    (∀ c r2, Event.rootEv c r2 ∈ (vfsSync ops st buf).2.2.2 →
       ∃ pre, (vfsSync ops st buf).2.2.2 = pre ++ [Event.rootEv c r2] ∧
         ∀ e ∈ pre, ∃ d c2, e = Event.putEv d (.ok c2)) := by
  unfold vfsSync
  by_cases hd : buf.dirty = false
  · simp [hd]
  · rw [if_neg hd]
    split
    case _ e st1 tr1 heq =>
      have hroot0 : rootObs st1 = rootObs st := by
        have h := syncPuts_rootObs ops rootObs hput buf.pages 0 st
        rw [heq] at h
        exact h
      have hnoroot : ∀ c r2, Event.rootEv c r2 ∉ tr1 := by
        intro c r2 hmem
        obtain ⟨d, r, habs⟩ := syncPuts_events_putEv ops buf.pages 0 st _
          (by rw [heq]; exact hmem)
        exact Event.noConfusion habs
      exact ⟨fun _ => ⟨⟨e, rfl⟩, hnoroot, hroot0⟩,
        fun c r2 hmem => absurd hmem (hnoroot c r2)⟩
    case _ updates st1 tr1 heq =>
      have htr1 : ∀ e ∈ tr1, ∃ d c, e = Event.putEv d (.ok c) :=
        syncPuts_ok_events ops buf.pages 0 st updates st1 tr1 heq
      have hroot1 : rootObs st1 = rootObs st := by
        have h := syncPuts_rootObs ops rootObs hput buf.pages 0 st
        rw [heq] at h
        exact h
      have hst2' : rootObs (ops.put st1 (applyUpdates buf.pageTable updates).toBytes).2 =
          rootObs st1 := hput st1 _
      split
      case _ e st2 hpt =>
        rw [hpt] at hst2'
        constructor
        · intro _
          refine ⟨⟨e, rfl⟩, ?_, hst2'.trans hroot1⟩
          intro c r2 hmem
          rw [List.mem_append] at hmem
          rcases hmem with hmem | hmem
          · obtain ⟨d2, c2, habs⟩ := htr1 _ hmem
            exact Event.noConfusion habs
          · simp at hmem
        · intro c r2 hmem
          rw [List.mem_append] at hmem
          rcases hmem with hmem | hmem
          · obtain ⟨d2, c2, habs⟩ := htr1 _ hmem
            exact absurd habs (by simp)
          · simp at hmem
      case _ ptCid st2 hpt =>
        split
        case _ e2 st3 hur =>
          exact ⟨fun ⟨d, e3, hmem⟩ =>
              absurd hmem (fun hm =>
                syncTail_no_error_put tr1 htr1 _ ptCid (.error e2) d e3 hm),
            syncTail_root_last tr1 htr1 _ ptCid (.error e2)⟩
        case _ u st3 hur =>
          exact ⟨fun ⟨d, e3, hmem⟩ =>
              absurd hmem (fun hm =>
                syncTail_no_error_put tr1 htr1 _ ptCid (.ok ()) d e3 hm),
            syncTail_root_last tr1 htr1 _ ptCid (.ok ())⟩

theorem c4_sync_root_atomicity_witness :
    ((vfsSync
        { get := fun s _ => (.error (.storage "r"), s),
          put := fun s _ => (.error (.storage "w"), s),
          updateRoot := fun _ c => (.ok (), some c),
          currentRoot := fun s => (.ok s, s) }
        (none : Option Cid)
        { pages := [some [byteOf 1]], pageSize := 4096, fileSize := 4096,
          pageTable := ⟨[]⟩, dirty := true }).1 = .error (.storage "w")) ∧
      ((vfsSync
        { get := fun s _ => (.error (.storage "r"), s),
          put := fun s _ => (.error (.storage "w"), s),
          updateRoot := fun _ c => (.ok (), some c),
          currentRoot := fun s => (.ok s, s) }
        (none : Option Cid)
        { pages := [some [byteOf 1]], pageSize := 4096, fileSize := 4096,
          pageTable := ⟨[]⟩, dirty := true }).2.1 = none) := by
  have h := (c4_sync_root_atomicity
    { get := fun s _ => (.error (.storage "r"), s),
      put := fun s _ => (.error (.storage "w"), s),
      updateRoot := fun _ c => (.ok (), some c),
      currentRoot := fun s => (.ok s, s) }
    (fun s => s) (fun _ _ => rfl) (none : Option Cid)
    { pages := [some [byteOf 1]], pageSize := 4096, fileSize := 4096,
      pageTable := ⟨[]⟩, dirty := true }).1
    ⟨[byteOf 1], .storage "w", by decide⟩
  exact ⟨by decide, h.2.2⟩

/-- C7: after `update_root(r)` succeeds on a caching store at time `t0`,
every `current_root()` call at a time `t` strictly less than `root_ttl` after
`t0` (any time at all when no TTL is configured) returns `Some r`, leaves the
state untouched, and performs no operation on the remote store (the `false`
component records that the remote was not contacted). -/
theorem c7_root_ttl_caching {ρ : Type} (ro : RemoteOps ρ) (cfg : CacheConfig)
    (st : CachingState ρ) (r : Cid) (t0 t : Nat) (st1 : CachingState ρ)
    (hupd : cachedUpdateRoot ro st r t0 = (.ok (), st1))
    (hfresh : ∀ ttl, cfg.rootTtl = some ttl → t - t0 < ttl) :
    cachedCurrentRoot ro cfg st1 t = (.ok (some r), st1, false) := by
  unfold cachedUpdateRoot at hupd
  split at hupd
  case _ e ρ' hur => exact absurd hupd (by simp)
  case _ u ρ' hur =>
    rw [Prod.mk.injEq] at hupd
    obtain ⟨-, hst1⟩ := hupd
    subst hst1
    cases hc : cfg.rootTtl with
    | some ttl =>
      simp only [cachedCurrentRoot, hc]
      rw [if_pos (hfresh ttl hc)]
    | none =>
      simp only [cachedCurrentRoot, hc]

theorem c7_root_ttl_caching_witness :
    cachedCurrentRoot
        { currentRoot := fun s => (.ok s, s),
          updateRoot := fun _ c => (.ok (), some c) }
        { rootTtl := some 300 }
        (cachedUpdateRoot
          { currentRoot := fun s => (.ok s, s),
            updateRoot := fun _ c => (.ok (), some c) }
          { localSt := LocalStore.empty, cacheRoot := none, cacheFetchedAt := none,
            remoteSt := (none : Option Cid) }
          nullCid 10).2 15 =
      (.ok (some nullCid),
        (cachedUpdateRoot
          { currentRoot := fun s => (.ok s, s),
            updateRoot := fun _ c => (.ok (), some c) }
          { localSt := LocalStore.empty, cacheRoot := none, cacheFetchedAt := none,
            remoteSt := (none : Option Cid) }
          nullCid 10).2, false) :=
  c7_root_ttl_caching _ _ _ nullCid 10 15 _ rfl
    (fun ttl h => by injection h with h2; omega)

/-- C8: on the local disk store, `put(p)` returns the digest of `p`'s bytes;
a subsequent `get` of that CID returns exactly `p`'s bytes; and repeating the
`put` with identical bytes returns the same CID and leaves the store state
unchanged.  The hypothesis states that no different byte string with the same
digest is already stored at that CID (for SHA-256 a collision is infeasible;
the digest function is abstract here, so the absence of a collision must be
assumed explicitly). -/
theorem c8_local_put_get (h : Hash) (st : LocalStore) (data : Bytes)
    (hclean : ∀ d, st.pages (h data) = some d → d = data) :
    (localPut h st data).1 = h data ∧
      localGet (localPut h st data).2 (h data) = .ok data ∧
      localPut h (localPut h st data).2 data = localPut h st data := by
  unfold localPut localGet
  cases hp : st.pages (h data) with
  | some d =>
    have hd := hclean d hp
    subst hd
    simp [hp]
  | none =>
    simp [hp]

theorem c8_local_put_get_witness :
    localGet (localPut (fun _ => nullCid) LocalStore.empty [byteOf 1]).2
        ((fun _ => nullCid : Hash) [byteOf 1]) = .ok [byteOf 1] :=
  (c8_local_put_get (fun _ => nullCid) LocalStore.empty [byteOf 1]
    (fun d hd => by simp [LocalStore.empty] at hd)).2.1

/-- C10: on the local disk store, a `root` or `refs/<name>` file whose content
hex-decodes to a byte string of length other than 32 makes `read_cid_file`
panic (`copy_from_slice` into a fixed `[u8; 32]`) rather than return a
`Storage` error, and `current_root` / `get_named_root` propagate that panic. -/
theorem c10_read_cid_file_panics :
    (∀ content bs, hexDecode (trimChars content) = .ok bs → bs.length ≠ 32 →
       readCidFileLocal (some content) =
         .panic "copy_from_slice: source slice length does not match destination") ∧
    (∀ (st : LocalStore) content bs, st.rootFile = some content →
       hexDecode (trimChars content) = .ok bs → bs.length ≠ 32 →
       localCurrentRoot st =
         .panic "copy_from_slice: source slice length does not match destination") ∧
    (∀ (st : LocalStore) name content bs, st.refs (refFileName name) = some content →
       hexDecode (trimChars content) = .ok bs → bs.length ≠ 32 →
       localGetNamedRoot st name =
         .panic "copy_from_slice: source slice length does not match destination") := by
  have base : ∀ content bs, hexDecode (trimChars content) = .ok bs → bs.length ≠ 32 →
      readCidFileLocal (some content) =
        .panic "copy_from_slice: source slice length does not match destination" := by
    intro content bs hdec hlen
    simp only [readCidFileLocal]
    rw [hdec]
    simp only [dif_neg hlen]
  refine ⟨base, ?_, ?_⟩
  · intro st content bs hroot hdec hlen
    unfold localCurrentRoot
    rw [hroot]
    exact base content bs hdec hlen
  · intro st name content bs href hdec hlen
    unfold localGetNamedRoot
    rw [href]
    exact base content bs hdec hlen

theorem c10_read_cid_file_panics_witness :
    hexDecode (trimChars ['0', '0']) = .ok [byteOf 0] ∧
      readCidFileLocal (some ['0', '0']) =
        .panic "copy_from_slice: source slice length does not match destination" :=
  ⟨by decide, (c10_read_cid_file_panics).1 ['0', '0'] [byteOf 0] (by decide) (by decide)⟩

/-- C2 counterexample: `ref_path` keeps the non-ASCII letter 'é' (U+00E9)
because Rust's `char::is_alphanumeric` is a Unicode test, so the derived file
name is not restricted to `[A-Za-z0-9._-]` and 'é' is not replaced by '_'. -/
theorem c2_sanitization_counterexample :
    refFileName ['é'] = ['é'] ∧ inSpecAsciiClass 'é' = false ∧
      ¬ (∀ name : List Char, ∀ c ∈ refFileName name, inSpecAsciiClass c = true) := by
  refine ⟨by decide, by decide, fun hall => ?_⟩
  exact absurd (hall ['é'] 'é' (by decide)) (by decide)

/-- C2 amended: sanitization keeps exactly the characters accepted by Rust's
Unicode `char::is_alphanumeric` plus `-`, `_`, `.`, replacing every other
character with `_`; for names made only of ASCII characters the derived file
name does consist solely of `[A-Za-z0-9._-]`, but non-ASCII alphanumerics are
kept verbatim.  (Names are restricted to U+0000..U+00FF, the range on which
`rustIsAlphanumeric` reproduces the Unicode tables exactly.) -/
theorem c2_sanitization_amended :
    (∀ name : List Char, (∀ c ∈ name, c.toNat < 256) →
       ∀ c ∈ refFileName name,
         rustIsAlphanumeric c = true ∨ c = '-' ∨ c = '_' ∨ c = '.') ∧
    (∀ name : List Char, (∀ c ∈ name, c.toNat < 128) →
       ∀ c ∈ refFileName name, inSpecAsciiClass c = true) := by
  constructor
  · intro name _ c hc
    simp only [refFileName, sanitizeWith, List.mem_map] at hc
    obtain ⟨a, _, rfl⟩ := hc
    by_cases hk : (rustIsAlphanumeric a || a == '-' || a == '_' || a == '.') = true
    · rw [if_pos hk]
      simp only [Bool.or_eq_true, beq_iff_eq] at hk
      tauto
    · rw [if_neg hk]
      tauto
  · intro name hascii c hc
    simp only [refFileName, sanitizeWith, List.mem_map] at hc
    obtain ⟨a, ha, rfl⟩ := hc
    by_cases hk : (rustIsAlphanumeric a || a == '-' || a == '_' || a == '.') = true
    · rw [if_pos hk]
      simp only [Bool.or_eq_true, beq_iff_eq] at hk
      have ha128 := hascii a ha
      rcases hk with ((halnum | rfl) | rfl) | rfl
      · simp only [rustIsAlphanumeric, Bool.or_eq_true, Bool.and_eq_true,
          decide_eq_true_eq, beq_iff_eq] at halnum
        simp only [inSpecAsciiClass, Bool.or_eq_true, Bool.and_eq_true,
          decide_eq_true_eq, beq_iff_eq]
        omega
      · decide
      · decide
      · decide
    · rw [if_neg hk]
      decide

theorem c2_sanitization_amended_witness :
    (∀ c ∈ ['s', 'n', 'a', 'p', '-', '1'], c.toNat < 128) ∧
      ∀ c ∈ refFileName ['s', 'n', 'a', 'p', '-', '1'], inSpecAsciiClass c = true :=
  ⟨by decide, c2_sanitization_amended.2 ['s', 'n', 'a', 'p', '-', '1'] (by decide)⟩

/-- C1 counterexample: after `CraftVfs::delete` resets the root to the null
CID on the in-memory `MemStore`, the current root is present but null, yet
`CraftVfs::exists` reports `true` — the claimed equivalence with "present and
non-null" fails, because `exists` only tests `is_some`. -/
theorem c1_exists_counterexample :
    ¬ ((vfsExists (memOps (fun _ => nullCid))
          ((vfsDelete (memOps (fun _ => nullCid)) MemStore.empty ['d', 'b']).2)
          ['d', 'b']).1 = .ok true ↔
        ∃ c, ((memOps (fun _ => nullCid)).currentRoot
            ((vfsDelete (memOps (fun _ => nullCid)) MemStore.empty ['d', 'b']).2)).1 =
              .ok (some c) ∧ c ≠ nullCid) := by
  intro hiff
  obtain ⟨c, hc, hne⟩ := hiff.mp rfl
  have h2 : (Except.ok (some nullCid) : Except PSError (Option Cid)) = .ok (some c) := hc
  simp only [Except.ok.injEq, Option.some.injEq] at h2
  exact hne h2.symm

/-- C1 amended: for a database name not ending in `-journal`/`-wal`/`-shm`,
`exists(db)` returns true iff `current_root()` returns `Some cid` for any
`cid`, the null CID included; in particular, after `delete(db)` resets the
root to the null CID on a store that then reports the null root as present
(such as the test `MemStore`, or the local disk store), `exists(db)` still
returns true. -/
theorem c1_exists_amended :
    (∀ {σ : Type} (ops : StoreOps σ) (st : σ) (db : List Char), isAuxFile db = false →
       ((vfsExists ops st db).1 = .ok true ↔
         ∃ c, (ops.currentRoot st).1 = .ok (some c))) ∧
    (∀ (h : Hash) (st : MemStore) (db : List Char), isAuxFile db = false →
       (vfsExists (memOps h) ((vfsDelete (memOps h) st db).2) db).1 = .ok true) := by
  constructor
  · intro σ ops st db haux
    unfold vfsExists
    rw [haux]
    rcases hcr : ops.currentRoot st with ⟨res, st'⟩
    cases res with
    | ok r =>
      simp only [Bool.false_eq_true, if_false, Except.ok.injEq]
      cases r <;> simp
    | error e =>
      simp
  · intro h st db haux
    unfold vfsDelete vfsExists
    rw [haux]
    simp [memOps, haux]

theorem c1_exists_amended_witness :
    isAuxFile ['d', 'b'] = false ∧
      (vfsExists (memOps (fun _ => nullCid))
        ((vfsDelete (memOps (fun _ => nullCid)) MemStore.empty ['d', 'b']).2)
        ['d', 'b']).1 = .ok true :=
  ⟨by decide,
    c1_exists_amended.2 (fun _ => nullCid) MemStore.empty ['d', 'b'] (by decide)⟩

/-! ## Bundle-format lemmas -/

theorem take_app {α : Type} (l r : List α) (k : Nat) (hk : l.length = k) :
    (l ++ r).take k = l := by
  subst hk; exact List.take_left l r

theorem drop_app {α : Type} (l r : List α) (k : Nat) (hk : l.length = k) :
    (l ++ r).drop k = r := by
  subst hk; exact List.drop_left l r

theorem bundleChunk_length (ps : Nat) (d : Bytes) (hd : d.length ≤ ps) :
    (bundleChunk ps d).length = ps := by
  unfold bundleChunk
  by_cases hlt : d.length < ps
  · rw [if_pos hlt]; simp; omega
  · rw [if_neg hlt]; omega

theorem bundlePageAt_ok (st : ObjStore) (pt : PageTable) (ps : Nat)
    (H : ∀ i c, pt.get i = some c → ∃ d, st.cache c = some d ∧ d.length ≤ ps) (i : Nat) :
    ∃ ch, bundlePageAt st pt ps i = .ok ch ∧ ch.length = ps := by
  cases hg : pt.get i with
  | none => exact ⟨List.replicate ps 0, by simp [bundlePageAt, hg], by simp⟩
  | some c =>
    obtain ⟨d, hc, hd⟩ := H i c hg
    exact ⟨bundleChunk ps d, by simp [bundlePageAt, hg, hc], bundleChunk_length ps d hd⟩

theorem bundleLoop_ok (st : ObjStore) (pt : PageTable) (ps : Nat)
    (H : ∀ i c, pt.get i = some c → ∃ d, st.cache c = some d ∧ d.length ≤ ps) :
    ∀ (r i : Nat), ∃ body, bundleLoop st pt ps i r = .ok body ∧ body.length = r * ps := by
  intro r
  induction r with
  | zero => intro i; exact ⟨[], rfl, by simp⟩
  | succ r ih =>
    intro i
    obtain ⟨ch, hch, hchl⟩ := bundlePageAt_ok st pt ps H i
    obtain ⟨rest, hrest, hrl⟩ := ih (i + 1)
    refine ⟨ch ++ rest, ?_, ?_⟩
    · simp only [bundleLoop, hch, hrest]
    · simp only [List.length_append, hchl, hrl]; ring

theorem bundlePageAt_congr (st st' : ObjStore) (pt : PageTable) (ps : Nat)
    (hsub : ∀ c d, st.cache c = some d → st'.cache c = some d)
    (H : ∀ i c, pt.get i = some c → ∃ d, st.cache c = some d ∧ d.length ≤ ps) (i : Nat) :
    bundlePageAt st' pt ps i = bundlePageAt st pt ps i := by
  cases hg : pt.get i with
  | none => simp [bundlePageAt, hg]
  | some c =>
    obtain ⟨d, hc, _⟩ := H i c hg
    simp [bundlePageAt, hg, hc, hsub c d hc]

theorem bundleLoop_congr (st st' : ObjStore) (pt : PageTable) (ps : Nat)
    (hsub : ∀ c d, st.cache c = some d → st'.cache c = some d)
    (H : ∀ i c, pt.get i = some c → ∃ d, st.cache c = some d ∧ d.length ≤ ps) :
    ∀ (r i : Nat), bundleLoop st' pt ps i r = bundleLoop st pt ps i r := by
  intro r
  induction r with
  | zero => intro i; rfl
  | succ r ih =>
    intro i
    simp only [bundleLoop, bundlePageAt_congr st st' pt ps hsub H i, ih (i + 1)]

theorem bundlePages_congr (st st' : ObjStore) (pt : PageTable) (ps : Nat)
    (hsub : ∀ c d, st.cache c = some d → st'.cache c = some d)
    (H : ∀ i c, pt.get i = some c → ∃ d, st.cache c = some d ∧ d.length ≤ ps) :
    bundlePages st' pt ps = bundlePages st pt ps := by
  unfold bundlePages
  rw [bundleLoop_congr st st' pt ps hsub H]

theorem bundle_layout (ps n L : Nat) (ptb body b : Bytes) (hL : ptb.length = L)
    (hb : b = bundleMagic ++ le16 1 ++ le32 ps ++ le32 n ++ ptb ++ le32 L ++ body) :
    b.length = 18 + L + body.length ∧
    b.take 4 = bundleMagic ∧
    (b.drop 4).take 2 = le16 1 ∧
    (b.drop 6).take 4 = le32 ps ∧
    (b.drop 10).take 4 = le32 n ∧
    (b.drop 14).take L = ptb ∧
    (b.drop (14 + L)).take 4 = le32 L ∧
    b.drop (18 + L) = body := by
  subst hL
  have hbr : b = bundleMagic ++
      (le16 1 ++ (le32 ps ++ (le32 n ++ (ptb ++ (le32 ptb.length ++ body))))) := by
    rw [hb]; simp [List.append_assoc]
  have hd4 : b.drop 4 = le16 1 ++ (le32 ps ++ (le32 n ++ (ptb ++ (le32 ptb.length ++ body)))) := by
    rw [hbr]; exact drop_app _ _ 4 rfl
  have hd6 : b.drop 6 = le32 ps ++ (le32 n ++ (ptb ++ (le32 ptb.length ++ body))) := by
    rw [show (6 : Nat) = 4 + 2 from rfl, ← List.drop_drop, hd4]
    exact drop_app _ _ 2 rfl
  have hd10 : b.drop 10 = le32 n ++ (ptb ++ (le32 ptb.length ++ body)) := by
    rw [show (10 : Nat) = 6 + 4 from rfl, ← List.drop_drop, hd6]
    exact drop_app _ _ 4 rfl
  have hd14 : b.drop 14 = ptb ++ (le32 ptb.length ++ body) := by
    rw [show (14 : Nat) = 10 + 4 from rfl, ← List.drop_drop, hd10]
    exact drop_app _ _ 4 rfl
  have hd14L : b.drop (14 + ptb.length) = le32 ptb.length ++ body := by
    rw [← List.drop_drop, hd14]
    exact drop_app _ _ _ rfl
  have hd18 : b.drop (18 + ptb.length) = body := by
    rw [show 18 + ptb.length = (14 + ptb.length) + 4 by omega, ← List.drop_drop, hd14L]
    exact drop_app _ _ 4 rfl
  refine ⟨?_, ?_, ?_, ?_, ?_, ?_, ?_, hd18⟩
  · rw [hb]
    simp only [List.length_append, le16_length, le32_length]
    have : bundleMagic.length = 4 := rfl
    omega
  · rw [hbr]; exact take_app _ _ 4 rfl
  · rw [hd4]; exact take_app _ _ 2 rfl
  · rw [hd6]; exact take_app _ _ 4 rfl
  · rw [hd10]; exact take_app _ _ 4 rfl
  · rw [hd14]; exact take_app _ _ _ rfl
  · rw [hd14L]; exact take_app _ _ 4 rfl

theorem cachePutIfAbsent_preserves (st : ObjStore) (k : Cid) (v : Bytes) (c : Cid)
    (d : Bytes) (hd : st.cache c = some d) : (cachePutIfAbsent st k v).cache c = some d := by
  unfold cachePutIfAbsent
  cases hk : st.cache k with
  | some _ => exact hd
  | none =>
    by_cases hck : c = k
    · rw [hck, hk] at hd; exact Option.noConfusion hd
    · simp only [if_neg hck]
      exact hd

theorem cachePutIfAbsent_lookup (st : ObjStore) (k : Cid) (v : Bytes) (c : Cid) (w : Bytes)
    (hw : (cachePutIfAbsent st k v).cache c = some w) :
    st.cache c = some w ∨ (c = k ∧ w = v) := by
  unfold cachePutIfAbsent at hw
  cases hk : st.cache k with
  | some _ => rw [hk] at hw; exact Or.inl hw
  | none =>
    simp only [hk] at hw
    by_cases hck : c = k
    · rw [if_pos hck] at hw
      injection hw with hw
      exact Or.inr ⟨hck, hw.symm⟩
    · rw [if_neg hck] at hw
      exact Or.inl hw

theorem unbundleWrite_preserves (h : Hash) (data : Bytes) (ps s : Nat) :
    ∀ (r i : Nat) (st st' : ObjStore), unbundleWrite h data ps s i r st = .ok st' →
      ∀ c d, st.cache c = some d → st'.cache c = some d := by
  intro r
  induction r with
  | zero =>
    intro i st st' hrun c d hd
    simp only [unbundleWrite] at hrun
    injection hrun with hrun
    rw [← hrun]
    exact hd
  | succ r ih =>
    intro i st st' hrun c d hd
    simp only [unbundleWrite] at hrun
    split at hrun
    · exact absurd hrun (by simp)
    · exact ih (i + 1) _ st' hrun c d (cachePutIfAbsent_preserves st _ _ c d hd)

theorem unbundleWrite_lookup (h : Hash) (data : Bytes) (ps s : Nat) :
    ∀ (r i : Nat) (st st' : ObjStore), unbundleWrite h data ps s i r st = .ok st' →
      ∀ c w, st'.cache c = some w → st.cache c = some w ∨ h w = c := by
  intro r
  induction r with
  | zero =>
    intro i st st' hrun c w hw
    simp only [unbundleWrite] at hrun
    injection hrun with hrun
    rw [← hrun] at hw
    exact Or.inl hw
  | succ r ih =>
    intro i st st' hrun c w hw
    simp only [unbundleWrite] at hrun
    split at hrun
    · exact absurd hrun (by simp)
    · rcases ih (i + 1) _ st' hrun c w hw with hw' | hkey
      · rcases cachePutIfAbsent_lookup st _ _ c w hw' with hw'' | ⟨hck, hwv⟩
        · exact Or.inl hw''
        · subst hck; subst hwv; exact Or.inr rfl
      · exact Or.inr hkey

theorem unbundleWrite_ok (h : Hash) (data : Bytes) (ps s : Nat) :
    ∀ (r i : Nat) (st : ObjStore), s + (i + r) * ps ≤ data.length →
      ∃ st', unbundleWrite h data ps s i r st = .ok st' := by
  intro r
  induction r with
  | zero => intro i st _; exact ⟨st, rfl⟩
  | succ r ih =>
    intro i st hbound
    have hexp : (i + (r + 1)) * ps = i * ps + r * ps + ps := by ring
    have hcond : ¬ data.length < s + i * ps + ps := by omega
    obtain ⟨st', hst'⟩ := ih (i + 1) (cachePutIfAbsent st
      (h ((data.drop (s + i * ps)).take ps)) ((data.drop (s + i * ps)).take ps)) (by
        have : (i + 1 + r) * ps = i * ps + r * ps + ps := by ring
        omega)
    refine ⟨st', ?_⟩
    simp only [unbundleWrite]
    rw [if_neg hcond]
    exact hst'

theorem unbundlePages_state (h : Hash) (st : ObjStore) (data : Bytes) :
    (∀ c d, st.cache c = some d → (unbundlePages h st data).2.cache c = some d) ∧
    (∀ c w, (unbundlePages h st data).2.cache c = some w → st.cache c = some w ∨ h w = c) := by
  unfold unbundlePages
  split
  · exact ⟨fun c d hd => hd, fun c w hw => Or.inl hw⟩
  · split
    · exact ⟨fun c d hd => hd, fun c w hw => Or.inl hw⟩
    · split
      · exact ⟨fun c d hd => hd, fun c w hw => Or.inl hw⟩
      · split
        · exact ⟨fun c d hd => hd, fun c w hw => Or.inl hw⟩
        · split
          · exact ⟨fun c d hd => hd, fun c w hw => Or.inl hw⟩
          · split
            · exact ⟨fun c d hd => hd, fun c w hw => Or.inl hw⟩
            · next pt heq =>
              split
              · exact ⟨fun c d hd => hd, fun c w hw => Or.inl hw⟩
              · next st3 heq2 =>
                constructor
                · intro c d hd
                  exact cachePutIfAbsent_preserves st3 _ _ c d
                    (unbundleWrite_preserves h data _ _ _ 0 st st3 heq2 c d hd)
                · intro c w hw
                  rcases cachePutIfAbsent_lookup st3 _ _ c w hw with hw' | ⟨hck, hwv⟩
                  · exact unbundleWrite_lookup h data _ _ _ 0 st st3 heq2 c w hw'
                  · subst hck; subst hwv; exact Or.inr rfl

theorem bundlePages_eq (st : ObjStore) (pt : PageTable) (ps : Nat)
    (H : ∀ i c, pt.get i = some c → ∃ d, st.cache c = some d ∧ d.length ≤ ps)
    (hn : pt.entries.length < 2 ^ 32) :
    ∃ body, body.length = pt.entries.length * ps ∧
      bundlePages st pt ps = .ok (bundleMagic ++ le16 1 ++ le32 ps ++
        le32 pt.entries.length ++ pt.toBytes ++ le32 pt.toBytes.length ++ body) := by
  obtain ⟨body, hbody, hblen⟩ := bundleLoop_ok st pt ps H pt.entries.length 0
  refine ⟨body, hblen, ?_⟩
  unfold bundlePages
  rw [Nat.mod_eq_of_lt hn, hbody]

theorem unbundle_of_bundle (hash : Hash) (st st2 : ObjStore) (pt : PageTable) (ps : Nat)
    (b : Bytes)
    (H : ∀ i c, pt.get i = some c → ∃ d, st.cache c = some d ∧ d.length ≤ ps)
    (hn : pt.entries.length < 2 ^ 32) (hL : pt.toBytes.length < 2 ^ 32) (hps : ps < 2 ^ 32)
    (hb : bundlePages st pt ps = .ok b) :
    ∃ st3, unbundlePages hash st2 b = (.ok pt, st3) := by
  obtain ⟨body, hblen, hbeq⟩ := bundlePages_eq st pt ps H hn
  rw [hb] at hbeq
  have hbT := (Except.ok.inj hbeq)
  obtain ⟨hlen, hmag, hver2, hps4, hn4, hptb, htrail, hbody⟩ :=
    bundle_layout ps pt.entries.length pt.toBytes.length pt.toBytes body b rfl hbT
  have hlen' : b.length = 18 + pt.toBytes.length + pt.entries.length * ps := by
    rw [hlen, hblen]
  have hPS : bundlePS b = ps := by
    unfold bundlePS; rw [hps4]; exact decodeLE_le32 ps hps
  have hCount : bundleCount b = pt.entries.length := by
    unfold bundleCount; rw [hn4]; exact decodeLE_le32 _ hn
  have hOff : bundlePtLenOffset b = 14 + pt.toBytes.length := by
    unfold bundlePtLenOffset; rw [hPS, hCount]; omega
  have hPtLen : bundlePtLen b = pt.toBytes.length := by
    unfold bundlePtLen; rw [hOff, htrail]; exact decodeLE_le32 _ hL
  have hver1 : decodeLE ((b.drop 4).take 2) = 1 := by
    rw [hver2]; exact decodeLE_le16 1 (by norm_num)
  have h64 : pt.entries.length < 2 ^ 64 := lt_trans hn (by norm_num)
  unfold unbundlePages
  rw [if_neg (by omega : ¬ b.length < 18)]
  rw [if_neg (by simp [hmag])]
  rw [if_neg (by simp [hver1])]
  rw [if_neg (by rw [hCount, hPS]; omega)]
  rw [if_neg (by rw [hOff, hPtLen]; omega)]
  split
  case _ e heq =>
    rw [hPtLen, hptb, fromBytes_toBytes pt h64] at heq
    exact absurd heq (by simp)
  case _ pt' heq =>
    rw [hPtLen, hptb, fromBytes_toBytes pt h64] at heq
    have hpt' : pt' = pt := (Except.ok.inj heq).symm
    split
    case _ e2 heq2 =>
      rw [hPS, hCount, hOff] at heq2
      obtain ⟨st3, hok⟩ := unbundleWrite_ok hash b ps ((14 + pt.toBytes.length) + 4)
        pt.entries.length 0 st2 (by rw [Nat.zero_add]; omega)
      rw [hok] at heq2
      exact absurd heq2 (by simp)
    case _ st3 heq2 =>
      exact ⟨_, by rw [hpt']⟩

/-- C5 amended: for every `PageTable` whose every non-`None` entry resolves to
a locally cached page of length at most the page size (shorter pages are
zero-padded; the source never truncates an oversized page, which is what the
counterexample exploits), and sizes within the `u32` fields of the format,
`bundle → unbundle → bundle` on the same store is a fixed point: unbundling
recovers the same table, and rebundling produces the byte-identical blob. -/
theorem c5_bundle_unbundle_bundle (hash : Hash) (st : ObjStore) (pt : PageTable) (ps : Nat)
    (H : ∀ i c, pt.get i = some c → ∃ d, st.cache c = some d ∧ d.length ≤ ps)
    (hn : pt.entries.length < 2 ^ 32) (hL : pt.toBytes.length < 2 ^ 32)
    (hps : ps < 2 ^ 32) :
    ∃ b st', bundlePages st pt ps = .ok b ∧ unbundlePages hash st b = (.ok pt, st') ∧
      bundlePages st' pt ps = .ok b := by
  obtain ⟨body, hblen, hbeq⟩ := bundlePages_eq st pt ps H hn
  obtain ⟨st', hu⟩ := unbundle_of_bundle hash st st pt ps _ H hn hL hps hbeq
  refine ⟨_, st', hbeq, hu, ?_⟩
  have hsub : ∀ c d, st.cache c = some d → st'.cache c = some d := by
    intro c d hd
    have hp := (unbundlePages_state hash st (bundleMagic ++ le16 1 ++ le32 ps ++
      le32 pt.entries.length ++ pt.toBytes ++ le32 pt.toBytes.length ++ body)).1 c d hd
    rw [hu] at hp
    exact hp
  rw [bundlePages_congr st st' pt ps hsub H]
  exact hbeq

theorem c5_bundle_unbundle_bundle_witness :
    (bundlePages fitStore cexTable 1).isOk = true ∧
      (unbundlePages cexHash fitStore
        ((bundlePages fitStore cexTable 1).toOption.getD [])).1 = .ok cexTable := by
  have hH : ∀ i c, cexTable.get i = some c →
      ∃ d, fitStore.cache c = some d ∧ d.length ≤ 1 := by
    intro i c hg
    cases i with
    | zero =>
      simp only [cexTable, PageTable.get, List.get?, Option.some_bind, id] at hg
      refine ⟨[byteOf 7], ?_, by decide⟩
      rw [← Option.some.inj hg]
      decide
    | succ n =>
      simp [cexTable, PageTable.get] at hg
  obtain ⟨b, st', h1, h2, _⟩ :=
    c5_bundle_unbundle_bundle cexHash fitStore cexTable 1 hH (by decide) (by decide) (by decide)
  constructor
  · rw [h1]; rfl
  · have hget : (bundlePages fitStore cexTable 1).toOption.getD [] = b := by
      rw [h1]; rfl
    rw [hget, h2]

/-- C5 counterexample: with a cached page of two bytes and page size 1 (the
claim quantifies over every page size), bundling succeeds but unbundling the
produced blob fails — the oversized page is written unpadded and untruncated,
so the pt_len located from the total length is wrong and the page-table parse
fails; `bundle → unbundle → bundle` is not even defined, let alone a fixed
point, although every non-`None` entry of the table resolves to a locally
cached page. -/
theorem c5_bundle_counterexample :
    (bundlePages cexStore cexTable 1).toOption.map
        (fun b => (unbundlePages cexHash cexStore b).1) =
      some (.error (.storage "parse page table")) := by decide

theorem fitStore_resolves :
    ∀ i c, cexTable.get i = some c → ∃ d, fitStore.cache c = some d ∧ d.length ≤ 1 := by
  intro i c hg
  cases i with
  | zero =>
    simp only [cexTable, PageTable.get, List.get?, Option.some_bind, id] at hg
    refine ⟨[byteOf 7], ?_, by decide⟩
    rw [← Option.some.inj hg]
    decide
  | succ n => simp [cexTable, PageTable.get] at hg

/-- C6 amended: for every `PageTable` of `N` entries whose resolved pages are
at most `page_size` long (pages at the given page size; shorter pages are
zero-padded) and whose sizes fit the `u32` fields, the bundle has total length
exactly `14 + pt_len + 4 + N·page_size`, begins with magic `"CSQL"` and
little-endian version 1, stores `page_size` and `page_count` as little-endian
`u32`, repeats `pt_len` as a `u32` trailer after the serialized table, and the
unbundler recovers `pt_len` at `total_len − page_count·page_size − 4`;
moreover the unbundler strictly checks bounds, rejecting blobs shorter than
the fixed header, blobs too short for their declared page data, and blobs
whose located page-table length is inconsistent. -/
theorem c6_bundle_format :
    (∀ (st : ObjStore) (pt : PageTable) (ps : Nat),
       (∀ i c, pt.get i = some c → ∃ d, st.cache c = some d ∧ d.length ≤ ps) →
       pt.entries.length < 2 ^ 32 → pt.toBytes.length < 2 ^ 32 → ps < 2 ^ 32 →
       ∃ b, bundlePages st pt ps = .ok b ∧
         b.length = 14 + pt.toBytes.length + 4 + pt.entries.length * ps ∧
         b.take 4 = bundleMagic ∧
         (b.drop 4).take 2 = le16 1 ∧
         (b.drop 6).take 4 = le32 ps ∧
         (b.drop 10).take 4 = le32 pt.entries.length ∧
         (b.drop (14 + pt.toBytes.length)).take 4 = le32 pt.toBytes.length ∧
         bundlePtLenOffset b = 14 + pt.toBytes.length ∧
         bundlePtLen b = pt.toBytes.length) ∧
    (∀ (h : Hash) (st : ObjStore) (data : Bytes), data.length < 18 →
       (unbundlePages h st data).1 = .error (.storage "bundle too small")) ∧
    (∀ (h : Hash) (st : ObjStore) (data : Bytes), ¬ data.length < 18 →
       data.take 4 = bundleMagic → decodeLE ((data.drop 4).take 2) = 1 →
       data.length < 18 + bundleCount data * bundlePS data →
       (unbundlePages h st data).1 = .error (.storage "bundle data too short")) ∧
    (∀ (h : Hash) (st : ObjStore) (data : Bytes), ¬ data.length < 18 →
       data.take 4 = bundleMagic → decodeLE ((data.drop 4).take 2) = 1 →
       ¬ data.length < 18 + bundleCount data * bundlePS data →
       bundlePtLenOffset data < 14 + bundlePtLen data →
       (unbundlePages h st data).1 = .error (.storage "invalid page table length")) := by
  refine ⟨?_, ?_, ?_, ?_⟩
  · intro st pt ps H hn hL hps
    obtain ⟨body, hblen, hbeq⟩ := bundlePages_eq st pt ps H hn
    obtain ⟨hlen, hmag, hver2, hps4, hn4, hptb, htrail, hbody⟩ :=
      bundle_layout ps pt.entries.length pt.toBytes.length pt.toBytes body _ rfl rfl
    have hPS : bundlePS (bundleMagic ++ le16 1 ++ le32 ps ++
        le32 pt.entries.length ++ pt.toBytes ++ le32 pt.toBytes.length ++ body) = ps := by
      unfold bundlePS; rw [hps4]; exact decodeLE_le32 ps hps
    have hCount : bundleCount (bundleMagic ++ le16 1 ++ le32 ps ++
        le32 pt.entries.length ++ pt.toBytes ++ le32 pt.toBytes.length ++ body) =
        pt.entries.length := by
      unfold bundleCount; rw [hn4]; exact decodeLE_le32 _ hn
    have hOff : bundlePtLenOffset (bundleMagic ++ le16 1 ++ le32 ps ++
        le32 pt.entries.length ++ pt.toBytes ++ le32 pt.toBytes.length ++ body) =
        14 + pt.toBytes.length := by
      unfold bundlePtLenOffset; rw [hPS, hCount, hlen, hblen]; omega
    have hPtLen : bundlePtLen (bundleMagic ++ le16 1 ++ le32 ps ++
        le32 pt.entries.length ++ pt.toBytes ++ le32 pt.toBytes.length ++ body) =
        pt.toBytes.length := by
      unfold bundlePtLen; rw [hOff, htrail]; exact decodeLE_le32 _ hL
    exact ⟨_, hbeq, by rw [hlen, hblen]; omega, hmag, hver2, hps4, hn4, htrail, hOff, hPtLen⟩
  · intro h st data hlen
    unfold unbundlePages
    rw [if_pos hlen]
  · intro h st data h18 hmag hver hshort
    unfold unbundlePages
    rw [if_neg h18, if_neg (by simp [hmag]), if_neg (by simp [hver]), if_pos hshort]
  · intro h st data h18 hmag hver hshort hbad
    unfold unbundlePages
    rw [if_neg h18, if_neg (by simp [hmag]), if_neg (by simp [hver]), if_neg hshort,
      if_pos hbad]

theorem c6_bundle_format_witness :
    (bundlePages fitStore cexTable 1).toOption.map List.length =
      some (14 + (PageTable.toBytes cexTable).length + 4 + 1 * 1) := by
  obtain ⟨b, h1, h2, -⟩ :=
    c6_bundle_format.1 fitStore cexTable 1 fitStore_resolves (by decide) (by decide) (by decide)
  rw [h1]
  show some b.length = _
  rw [h2]
  rfl

/-- C6 counterexample: with a cached two-byte page bundled at page size 1, the
produced blob is 61 bytes, not the claimed
`14 + pt_len + 4 + N·page_size = 60` — oversized pages are appended without
truncation, so the stated length formula does not hold for every `PageTable`
bundled at a given page size. -/
theorem c6_length_counterexample :
    (bundlePages cexStore cexTable 1).toOption.map List.length = some 61 ∧
      (bundlePages cexStore cexTable 1).toOption.map List.length ≠
        some (14 + (PageTable.toBytes cexTable).length + 4 + 1 * 1) := by decide

/-- C3: for every CID requested from the daemon by `get` — the bundle fetched
via the root on a cache miss, and the last-resort direct fetch — bytes whose
digest does not equal the requested CID make the fetch fail with a `Storage`
CID-mismatch error; they are never written to the local cache and never
returned.  Concretely: (1) `DaemonBackend::fetch_page` verifies the digest
and fails `Storage` on mismatch; (2) `fetch_and_unbundle` of a root whose
served bytes mismatch fails and leaves the cache untouched; (3) `get` of a
CID whose served bytes mismatch never returns those bytes (anything it
returns hashes to the requested CID and came from a verified bundle), never
caches them under the requested CID, and — unless a verified bundle supplied
the page — fails with the `Storage` mismatch error. -/
theorem c3_fetch_integrity :
    (∀ (h : Hash) (files : Cid → Option Bytes) (c : Cid) (d : Bytes),
       files c = some d → h d ≠ c →
       daemonFetchPage h files c = .error (.storage "CID mismatch after fetch")) ∧
    (∀ (h : Hash) (files : Cid → Option Bytes) (st : ObjStore) (c : Cid) (d : Bytes),
       files c = some d → h d ≠ c →
       fetchAndUnbundle h files st c = (.error (.storage "CID mismatch after fetch"), st)) ∧
    (∀ (h : Hash) (files : Cid → Option Bytes) (st : ObjStore) (c : Cid) (d : Bytes),
       st.cache c = none → files c = some d → h d ≠ c →
       (∀ b, (craftObjGet h files st c).1 = .ok b → h b = c ∧ b ≠ d) ∧
       (craftObjGet h files st c).2.cache c ≠ some d ∧
       ((craftObjGet h files st c).2.cache c = none →
         (craftObjGet h files st c).1 = .error (.storage "CID mismatch after fetch"))) := by
  have part1 : ∀ (h : Hash) (files : Cid → Option Bytes) (c : Cid) (d : Bytes),
      files c = some d → h d ≠ c →
      daemonFetchPage h files c = .error (.storage "CID mismatch after fetch") := by
    intro h files c d hf hne
    simp only [daemonFetchPage, hf]
    rw [if_neg hne]
  refine ⟨part1, ?_, ?_⟩
  · intro h files st c d hf hne
    simp only [fetchAndUnbundle, part1 h files c d hf hne]
  · intro h files st c d hcache hf hne
    have hkey : ∀ w, (objGetBundleStep h files st).cache c = some w → h w = c := by
      intro w hw
      unfold objGetBundleStep at hw
      split at hw
      · next rootCid hroot =>
        split at hw
        · rw [hcache] at hw; exact Option.noConfusion hw
        · unfold fetchAndUnbundle at hw
          split at hw
          · next e hdf => rw [hcache] at hw; exact Option.noConfusion hw
          · next dd hdf =>
            rcases (unbundlePages_state h st dd).2 c w hw with hw' | hkey
            · rw [hcache] at hw'; exact Option.noConfusion hw'
            · exact hkey
      · rw [hcache] at hw; exact Option.noConfusion hw
    have hdf := part1 h files c d hf hne
    cases hb1 : (objGetBundleStep h files st).cache c with
    | some b =>
      have hres : craftObjGet h files st c = (.ok b, objGetBundleStep h files st) := by
        simp only [craftObjGet, hcache, hb1]
      have hkb := hkey b hb1
      have hbd : b ≠ d := fun hbd => hne (by rw [← hbd]; exact hkb)
      rw [hres]
      refine ⟨?_, ?_, ?_⟩
      · intro b' hb'
        have : b = b' := Except.ok.inj hb'
        rw [← this]
        exact ⟨hkb, hbd⟩
      · rw [hb1]
        intro heq
        exact hbd (Option.some.inj heq)
      · rw [hb1]
        intro heq
        exact Option.noConfusion heq
    | none =>
      have hres : craftObjGet h files st c =
          (.error (.storage "CID mismatch after fetch"), objGetBundleStep h files st) := by
        simp only [craftObjGet, hcache, hb1, hdf]
      rw [hres]
      refine ⟨?_, ?_, fun _ => rfl⟩
      · intro b hb
        exact absurd hb (by simp)
      · rw [hb1]
        intro heq
        exact Option.noConfusion heq

theorem c3_fetch_integrity_witness :
    (craftObjGet (fun _ => oneCid) (fun _ => some [byteOf 9]) emptyObj nullCid).1 =
      .error (.storage "CID mismatch after fetch") :=
  ((c3_fetch_integrity.2.2 (fun _ => oneCid) (fun _ => some [byteOf 9]) emptyObj nullCid
    [byteOf 9] rfl rfl (by decide)).2.2) rfl

theorem c9_pageTable_roundtrip_witness :
    (PageTable.mk [some nullCid, none, some nullCid]).entries.length < 2 ^ 64 ∧
      PageTable.fromBytes (PageTable.mk [some nullCid, none, some nullCid]).toBytes =
        .ok (PageTable.mk [some nullCid, none, some nullCid]) :=
  ⟨by decide, (c9_pageTable_roundtrip ⟨[some nullCid, none, some nullCid]⟩ (by decide)).1⟩

end CraftSQL
